import Mathlib

/-!
Verification development for the BitOQSim repository.

The quantum gate algebra of `src/src/QuantumCircuitMatrix.py` is embedded
shallowly: a numpy `ndarray` becomes a `Mat`, a record of its two dimensions
and a total entry function.  All scalar arithmetic the gates need (integers,
`1j`, `np.sqrt(2)`) lives in the exact field `K` = ℚ(i, √2), so float
arithmetic of the source is modelled exactly (on the inputs exercised here
every float operation of the source is exact).  Fallible numpy operations
(out-of-range index assignment, shape-mismatched `np.dot`) and Python
`raise` statements are modelled with `Except PyErr`.

The factoring orchestrator of
`src/CompletedExamples/ShorFactoringAlgorithm.py` is embedded as a
fuel-indexed loop (`shorLoop`, the `for i in range(limit)` loop) over a
single-iteration step function (`shorStep`), with `random.randint` modelled
by an arbitrary oracle stream and the pluggable period-finding function by
an arbitrary `ℕ → ℕ → Except PyErr ℕ`.  The two initial `while` loops that
strip factors of 2 and 5 are modelled by the inductive relation `StripRel`,
because the source loop does not terminate for input 0.
-/

/-- Scalar field of the embedding: `a + b·√2 + c·i + d·i·√2` with rational
coefficients.  Every matrix entry produced by the translated code lies in
this field. -/
@[ext]
structure K where
  a : ℚ
  b : ℚ
  c : ℚ
  d : ℚ
  deriving DecidableEq

namespace K

def add (x y : K) : K := ⟨x.a + y.a, x.b + y.b, x.c + y.c, x.d + y.d⟩

/-- Multiplication in ℚ(i, √2): uses `(√2)² = 2`, `i² = -1`, `(i√2)² = -2`. -/
def mul (x y : K) : K :=
  ⟨x.a * y.a + 2 * x.b * y.b - x.c * y.c - 2 * x.d * y.d,
   x.a * y.b + x.b * y.a - x.c * y.d - x.d * y.c,
   x.a * y.c + x.c * y.a + 2 * x.b * y.d + 2 * x.d * y.b,
   x.a * y.d + x.d * y.a + x.b * y.c + x.c * y.b⟩

def neg (x : K) : K := ⟨-x.a, -x.b, -x.c, -x.d⟩

def sub (x y : K) : K := ⟨x.a - y.a, x.b - y.b, x.c - y.c, x.d - y.d⟩

instance : Zero K := ⟨⟨0, 0, 0, 0⟩⟩
instance : One K := ⟨⟨1, 0, 0, 0⟩⟩
instance : Add K := ⟨K.add⟩
instance : Mul K := ⟨K.mul⟩
instance : Neg K := ⟨K.neg⟩
instance : Sub K := ⟨K.sub⟩

/-- The scalar `i` (`1j` in the source). -/
def imag : K := ⟨0, 0, 1, 0⟩

/-- The scalar `1/√2 = √2/2`; division by `np.sqrt(2)` in the source is
modelled as exact multiplication by this constant. -/
def invSqrt2 : K := ⟨0, 1/2, 0, 0⟩

@[simp] theorem add_def (x y : K) :
    x + y = ⟨x.a + y.a, x.b + y.b, x.c + y.c, x.d + y.d⟩ := rfl

@[simp] theorem mul_def (x y : K) :
    x * y = ⟨x.a * y.a + 2 * x.b * y.b - x.c * y.c - 2 * x.d * y.d,
             x.a * y.b + x.b * y.a - x.c * y.d - x.d * y.c,
             x.a * y.c + x.c * y.a + 2 * x.b * y.d + 2 * x.d * y.b,
             x.a * y.d + x.d * y.a + x.b * y.c + x.c * y.b⟩ := rfl

@[simp] theorem zero_def : (0 : K) = ⟨0, 0, 0, 0⟩ := rfl

@[simp] theorem one_def : (1 : K) = ⟨1, 0, 0, 0⟩ := rfl

theorem add_assoc (x y z : K) : x + y + z = x + (y + z) := by
  ext <;> simp <;> ring

theorem add_comm (x y : K) : x + y = y + x := by
  ext <;> simp <;> ring

theorem add_zero (x : K) : x + 0 = x := by
  ext <;> simp

theorem zero_add (x : K) : 0 + x = x := by
  ext <;> simp

theorem add_mul (x y z : K) : (x + y) * z = x * z + y * z := by
  ext <;> simp <;> ring

theorem mul_add (x y z : K) : x * (y + z) = x * y + x * z := by
  ext <;> simp <;> ring

theorem zero_mul (x : K) : 0 * x = 0 := by
  ext <;> simp

theorem mul_zero (x : K) : x * 0 = 0 := by
  ext <;> simp

theorem one_mul (x : K) : 1 * x = x := by
  ext <;> simp

theorem mul_one (x : K) : x * 1 = x := by
  ext <;> simp

end K

/-- Sum of a list of scalars (`foldr (+) 0`). -/
def ksum (l : List K) : K := l.foldr (· + ·) 0

@[simp] theorem ksum_nil : ksum [] = 0 := rfl

@[simp] theorem ksum_cons (x : K) (l : List K) : ksum (x :: l) = x + ksum l := rfl

theorem ksum_append (l₁ l₂ : List K) : ksum (l₁ ++ l₂) = ksum l₁ + ksum l₂ := by
  induction l₁ with
  | nil => rw [List.nil_append, ksum_nil, K.zero_add]
  | cons x l ih =>
      show x + ksum (l ++ l₂) = x + ksum l + ksum l₂
      rw [ih, K.add_assoc]

theorem ksum_map_mul_right {α : Type} (l : List α) (f : α → K) (c : K) :
    ksum (l.map fun q => f q * c) = ksum (l.map f) * c := by
  induction l with
  | nil => exact (K.zero_mul c).symm
  | cons x l ih =>
      show f x * c + ksum (l.map fun q => f q * c) = (f x + ksum (l.map f)) * c
      rw [ih, K.add_mul]

/-- A numpy ndarray: row count, column count, and a total entry function
(out-of-range entries are irrelevant junk; `Mat.eq` only compares entries
inside the bounds).  1-D numpy arrays are represented with `rows = 1`. -/
structure Mat where
  rows : ℕ
  cols : ℕ
  entries : ℕ → ℕ → K

namespace Mat

/-- Observable equality of two numpy arrays: same shape and same entries
inside the bounds. -/
def eq (A B : Mat) : Prop :=
  A.rows = B.rows ∧ A.cols = B.cols ∧
    ∀ i < A.rows, ∀ j < A.cols, A.entries i j = B.entries i j

instance (A B : Mat) : Decidable (Mat.eq A B) := by
  unfold Mat.eq; infer_instance

theorem eq_refl (A : Mat) : Mat.eq A A := ⟨rfl, rfl, fun _ _ _ _ => rfl⟩

/-- `np.kron` for 2-D arrays: `(A ⊗ B)[i, j] = A[i / p, j / q] * B[i % p, j % q]`
where `B` is `p × q`. -/
def kron (A B : Mat) : Mat :=
  ⟨A.rows * B.rows, A.cols * B.cols,
   fun i j => A.entries (i / B.rows) (j / B.cols) * B.entries (i % B.rows) (j % B.cols)⟩

/-- Elementwise `+` of equally-shaped arrays. -/
def add (A B : Mat) : Mat :=
  ⟨A.rows, A.cols, fun i j => A.entries i j + B.entries i j⟩

/-- Elementwise `-` of equally-shaped arrays. -/
def sub (A B : Mat) : Mat :=
  ⟨A.rows, A.cols, fun i j => A.entries i j - B.entries i j⟩

/-- Multiplication of an array by a scalar. -/
def smul (c : K) (A : Mat) : Mat :=
  ⟨A.rows, A.cols, fun i j => c * A.entries i j⟩

end Mat

/-- Build a `Mat` from a rectangular list-of-rows literal, mirroring
`np.array([[...], ...])`. -/
def matOf (rows : List (List K)) : Mat :=
  ⟨rows.length, (rows.headD []).length, fun i j => ((rows.getD i []).getD j 0)⟩

/-- `np.identity(n)`. -/
def npidentity (n : ℕ) : Mat := ⟨n, n, fun i j => if i = j then 1 else 0⟩

/-- `np.diag([x, y])`, the `2 × 2` diagonal matrix used by the gate constants. -/
def npdiag2 (x y : K) : Mat :=
  ⟨2, 2, fun i j =>
    if i = 0 ∧ j = 0 then x else if i = 1 ∧ j = 1 then y else 0⟩

/-- `np.diag(v)` for a 1-D array `v` (a `1 × n` `Mat`): the square matrix
with `v` on the diagonal. -/
def npdiagOfRow (v : Mat) : Mat :=
  ⟨v.cols, v.cols, fun i j => if i = j then v.entries 0 i else 0⟩

/-- Errors the translated Python/numpy code can raise. -/
inductive PyErr where
  | valueError
  | indexError
  | overflowError
  deriving DecidableEq

/-- `np.dot`: matrix product, raising `ValueError` on a shape mismatch. -/
def npdot (A B : Mat) : Except PyErr Mat :=
  if A.cols = B.rows then
    .ok ⟨A.rows, B.cols,
      fun i j => ksum ((List.range A.cols).map fun k => A.entries i k * B.entries k j)⟩
  else .error .valueError

/-- Equality of fallible matrix results: both fail with the same error, or
both succeed with observably equal matrices. -/
def ExEq : Except PyErr Mat → Except PyErr Mat → Prop
  | .ok A, .ok B => Mat.eq A B
  | .error e, .error f => e = f
  | _, _ => False

instance (x y : Except PyErr Mat) : Decidable (ExEq x y) := by
  cases x <;> cases y <;> simp only [ExEq] <;> infer_instance

/-- Bit length of a natural number via structural fuel; `n` itself bounds
the number of halvings, so `blenAux n n` is the bit length for every `n`. -/
def blenAux : ℕ → ℕ → ℕ
  | 0, _ => 0
  | f + 1, n => if n = 0 then 0 else blenAux f (n / 2) + 1

def blen (n : ℕ) : ℕ := blenAux n n

/-- Round a natural number to the value the nearest IEEE binary64 double
represents (53-bit mantissa, round half to even), kept exact as a natural:
numbers of at most 53 bits are unchanged; a longer number is rounded to the
nearest multiple of `2^(blen n - 53)`, ties to the even mantissa.  This is
what storing an integer in a Python float does. -/
def rnd53 (n : ℕ) : ℕ :=
  if blen n ≤ 53 then n
  else
    (if 2 * (n % 2 ^ (blen n - 53)) < 2 ^ (blen n - 53) then
       n / 2 ^ (blen n - 53)
     else if 2 ^ (blen n - 53) < 2 * (n % 2 ^ (blen n - 53)) then
       n / 2 ^ (blen n - 53) + 1
     else if n / 2 ^ (blen n - 53) % 2 = 0 then n / 2 ^ (blen n - 53)
     else n / 2 ^ (blen n - 53) + 1) * 2 ^ (blen n - 53)

/-- Sign-symmetric extension of `rnd53` to integers (IEEE round-to-nearest
is symmetric under negation). -/
def rnd53Z (m : ℤ) : ℤ :=
  if m < 0 then -(rnd53 (-m).toNat : ℤ) else (rnd53 m.toNat : ℤ)

/-! ## Basis vector builder (`get_bra` / `get_ket`) -/

/-- The `2`-dimensional primitive kets of `get_ket`: `|0⟩` is `[[1], [0]]`. -/
def zero_ket : Mat := matOf [[1], [0]]

def one_ket : Mat := matOf [[0], [1]]

/-- `|+⟩ = |0⟩/√2 + |1⟩/√2`. -/
def plus_ket : Mat := Mat.add (Mat.smul K.invSqrt2 zero_ket) (Mat.smul K.invSqrt2 one_ket)

/-- `|-⟩ = |0⟩/√2 - |1⟩/√2`. -/
def minus_ket : Mat := Mat.sub (Mat.smul K.invSqrt2 zero_ket) (Mat.smul K.invSqrt2 one_ket)

/-- The `2`-dimensional primitive bras of `get_bra`: `⟨0|` is `[[1, 0]]`. -/
def zero_bra : Mat := matOf [[1, 0]]

def one_bra : Mat := matOf [[0, 1]]

def plus_bra : Mat := Mat.add (Mat.smul K.invSqrt2 zero_bra) (Mat.smul K.invSqrt2 one_bra)

def minus_bra : Mat := Mat.sub (Mat.smul K.invSqrt2 zero_bra) (Mat.smul K.invSqrt2 one_bra)

/-- The characters of a `qubit_string` accepted by `get_bra`/`get_ket`
(an unsupported character raises `ValueError` in the source; the embedding
restricts strings to the supported alphabet). -/
inductive QChar where
  | c0
  | c1
  | cplus
  | cminus
  deriving DecidableEq

def ketPrim : QChar → Mat
  | .c0 => zero_ket
  | .c1 => one_ket
  | .cplus => plus_ket
  | .cminus => minus_ket

def braPrim : QChar → Mat
  | .c0 => zero_bra
  | .c1 => one_bra
  | .cplus => plus_bra
  | .cminus => minus_bra

/-- A positional argument of `get_bra`/`get_ket`: an `int`, an already-built
`np.ndarray`, or a `str` of qubit symbols.  (The `bytes`-conversion branch of
the source is not exercised by any claim.) -/
inductive BKArg where
  | nat (n : ℕ)
  | mat (m : Mat)
  | str (s : List QChar)

/-- `qubits_to_bits` of the source: `2 ** numQubits`. -/
def qubits_to_bits (numQubits : ℕ) : ℕ := 2 ^ numQubits

/-- The `while qubits_to_bits(num_qubits) < argv: num_qubits += 1` loop of
`get_bra`/`get_ket`, starting at `num_qubits = 1`.  Structural fuel `v`
dominates the loop's iteration count (the loop adds at most `log2 v` to the
start value `1`), so the fuel branch is never the result for any input. -/
def nqfAux : ℕ → ℕ → ℕ → ℕ
  | 0, k, _ => k
  | fuel + 1, k, v => if 2 ^ k < v then nqfAux fuel (k + 1) v else k

def numQubitsFor (v : ℕ) : ℕ := nqfAux v 1 v

/-- `get_qubit_vector(numQubits, *args)` of the source: a `2^numQubits`-entry
zero column with ones written at the indices in `args` (index `0` when `args`
is empty).  numpy raises `IndexError` when an index is out of range. -/
def get_qubit_vector (numQubits : ℕ) (args : List ℕ) : Except PyErr Mat :=
  let numBits := qubits_to_bits numQubits
  if args.all (· < numBits) then
    .ok ⟨numBits, 1,
      fun i j =>
        if j = 0 ∧ (args.contains i ∨ (args.isEmpty ∧ i = 0)) then 1 else 0⟩
  else .error .indexError

/-- `get_qubit_matrix(numQubits, *args)` of the source: a square zero matrix
with ones written on the diagonal at the indices in `args` (index `0` when
`args` is empty). -/
def get_qubit_matrix (numQubits : ℕ) (args : List ℕ) : Except PyErr Mat :=
  let numBits := qubits_to_bits numQubits
  if args.all (· < numBits) then
    .ok ⟨numBits, numBits,
      fun i j =>
        if i = j ∧ (args.contains i ∨ (args.isEmpty ∧ i = 0)) then 1 else 0⟩
  else .error .indexError

/-- The `qubit_string` loop of `get_ket` run on a whole string: the
accumulator starts as scalar `1` and each character's primitive is
kron-ed on the left (`ketTEMP = np.kron(q_ket, ketTEMP)`); an empty string
leaves the accumulator at `1`, in which case `get_ket` falls back to `|0⟩`. -/
def qubitStringKet (s : List QChar) : Mat :=
  match s.foldl (fun acc q =>
      some (match acc with
            | none => ketPrim q
            | some m => Mat.kron (ketPrim q) m)) none with
  | none => zero_ket
  | some m => m

def qubitStringBra (s : List QChar) : Mat :=
  match s.foldl (fun acc q =>
      some (match acc with
            | none => braPrim q
            | some m => Mat.kron (braPrim q) m)) none with
  | none => zero_bra
  | some m => m

/-- The int-argument branch of `get_ket`: values `0`/`1` give the primitive
kets; any other value `v` picks `num_qubits` with the while loop and builds
`get_qubit_vector(num_qubits, v)`. -/
def argKet : BKArg → Except PyErr Mat
  | .nat 0 => .ok zero_ket
  | .nat 1 => .ok one_ket
  | .nat v => get_qubit_vector (numQubitsFor v) [v]
  | .mat m => .ok m
  | .str s => .ok (qubitStringKet s)

/-- The int-argument branch of `get_bra` (the source too uses the column
vector `get_qubit_vector` for integers outside `{0, 1}`). -/
def argBra : BKArg → Except PyErr Mat
  | .nat 0 => .ok zero_bra
  | .nat 1 => .ok one_bra
  | .nat v => get_qubit_vector (numQubitsFor v) [v]
  | .mat m => .ok m
  | .str s => .ok (qubitStringBra s)

/-- `get_ket(*args, qubit_string=qs)` of the source.  The positional loop
iterates `args[::-1]` and krons each new factor on the left of the
accumulator (which starts as scalar `1`, modelled by `none`); the
`qubit_string` loop builds its own block the same way; the string block is
then kron-ed on the left of the positional block; with no input at all the
result defaults to `|0⟩`. -/
def get_ket (args : List BKArg) (qs : List QChar) : Except PyErr Mat := do
  let argPart ← args.reverse.foldlM (fun acc a => do
      let m ← argKet a
      pure (some (match acc with
                  | none => m
                  | some k => Mat.kron m k))) (none : Option Mat)
  let strPart : Option Mat :=
    if qs.isEmpty then none else some (qubitStringKet qs)
  match argPart, strPart with
  | none, none => pure zero_ket
  | some m, none => pure m
  | none, some s => pure s
  | some m, some s => pure (Mat.kron s m)

def get_bra (args : List BKArg) (qs : List QChar) : Except PyErr Mat := do
  let argPart ← args.reverse.foldlM (fun acc a => do
      let m ← argBra a
      pure (some (match acc with
                  | none => m
                  | some k => Mat.kron m k))) (none : Option Mat)
  let strPart : Option Mat :=
    if qs.isEmpty then none else some (qubitStringBra qs)
  match argPart, strPart with
  | none, none => pure zero_bra
  | some m, none => pure m
  | none, some s => pure s
  | some m, some s => pure (Mat.kron s m)

/-! ## Gate algebra -/

/-- Identity gate constant for a single qubit (`np.array([[1,0],[0,1]])`). -/
def one_qubit_identity_gate : Mat := matOf [[1, 0], [0, 1]]

/-- Pauli-X gate constant (`np.array([[0,1],[1,0]])`). -/
def Pauli_X_gate : Mat := matOf [[0, 1], [1, 0]]

/-- Pauli-Y gate constant (`np.array([[0,-1j],[1j,0]])`). -/
def Pauli_Y_gate : Mat := matOf [[0, -K.imag], [K.imag, 0]]

/-- Pauli-Z gate constant (`np.array([[1,0],[0,-1]])`). -/
def Pauli_Z_gate : Mat := matOf [[1, 0], [0, -1]]

/-- CNOT gate constant:
`np.kron(np.diag([1,0]), I₂) + np.kron(np.diag([0,1]), X)`. -/
def CNOT_gate : Mat :=
  Mat.add (Mat.kron (npdiag2 1 0) one_qubit_identity_gate)
          (Mat.kron (npdiag2 0 1) Pauli_X_gate)

/-- Hadamard gate constant: `np.array([[1,1],[1,-1]]) / np.sqrt(2)`. -/
def Hadamard_gate : Mat := Mat.smul K.invSqrt2 (matOf [[1, 1], [1, -1]])

/-- Swap gate constant. -/
def swap_gate : Mat :=
  matOf [[1, 0, 0, 0], [0, 0, 1, 0], [0, 1, 0, 0], [0, 0, 0, 1]]

/-- `Pauli_X_Gate()`: `np.kron(zero_bra, one_ket) + np.kron(zero_ket, one_bra)`,
with the bras/kets obtained from `get_bra`/`get_ket`. -/
def Pauli_X_Gate : Except PyErr Mat := do
  let zb ← get_bra [.nat 0] []
  let ob ← get_bra [.nat 1] []
  let zk ← get_ket [.nat 0] []
  let ok1 ← get_ket [.nat 1] []
  pure (Mat.add (Mat.kron zb ok1) (Mat.kron zk ob))

/-- `Pauli_Y_Gate()`: `1j * (np.kron(one_ket, zero_bra) - np.kron(zero_ket, one_bra))`. -/
def Pauli_Y_Gate : Except PyErr Mat := do
  let zb ← get_bra [.nat 0] []
  let ob ← get_bra [.nat 1] []
  let zk ← get_ket [.nat 0] []
  let ok1 ← get_ket [.nat 1] []
  pure (Mat.smul K.imag (Mat.sub (Mat.kron ok1 zb) (Mat.kron zk ob)))

/-- `Pauli_Z_Gate()`: `np.kron(zero_ket, zero_bra) - np.kron(one_ket, one_bra)`. -/
def Pauli_Z_Gate : Except PyErr Mat := do
  let zb ← get_bra [.nat 0] []
  let ob ← get_bra [.nat 1] []
  let zk ← get_ket [.nat 0] []
  let ok1 ← get_ket [.nat 1] []
  pure (Mat.sub (Mat.kron zk zb) (Mat.kron ok1 ob))

/-- `CU_Gate(U)`: `|0⟩⟨0| ⊗ |0⟩⟨0| + |0⟩⟨0| ⊗ |1⟩⟨1| + |1⟩⟨1| ⊗ U`, where the
projectors are built as `np.kron(get_bra(i), get_ket(i))`. -/
def CU_Gate (U : Mat) : Except PyErr Mat := do
  let zb ← get_bra [.nat 0] []
  let zk ← get_ket [.nat 0] []
  let ob ← get_bra [.nat 1] []
  let ok1 ← get_ket [.nat 1] []
  let zero_prod := Mat.kron zb zk
  let one_prod := Mat.kron ob ok1
  pure (Mat.add (Mat.add (Mat.kron zero_prod zero_prod)
                         (Mat.kron zero_prod one_prod))
                (Mat.kron one_prod U))

/-- `CNOT_Gate()`: `CU_Gate(Pauli_X_Gate())`. -/
def CNOT_Gate : Except PyErr Mat := do
  let x ← Pauli_X_Gate
  CU_Gate x

/-- `Hadamard_Gate()`: `np.kron(plus_ket, zero_bra) + np.kron(minus_ket, one_bra)`
with the vectors obtained from `get_bra("0")`, `get_bra("1")`,
`get_ket("+")`, `get_ket("-")`. -/
def Hadamard_Gate : Except PyErr Mat := do
  let zb ← get_bra [.str [.c0]] []
  let ob ← get_bra [.str [.c1]] []
  let pk ← get_ket [.str [.cplus]] []
  let mk1 ← get_ket [.str [.cminus]] []
  pure (Mat.add (Mat.kron pk zb) (Mat.kron mk1 ob))

/-- `Swap_Gate()`: sum of the four outer products
`|00⟩⟨00| + |10⟩⟨01| + |01⟩⟨10| + |11⟩⟨11|` built from
`get_bra`/`get_ket` on two-character strings. -/
def Swap_Gate : Except PyErr Mat := do
  let zzb ← get_bra [.str [.c0, .c0]] []
  let zob ← get_bra [.str [.c0, .c1]] []
  let ozb ← get_bra [.str [.c1, .c0]] []
  let oob ← get_bra [.str [.c1, .c1]] []
  let zzk ← get_ket [.str [.c0, .c0]] []
  let zok ← get_ket [.str [.c0, .c1]] []
  let ozk ← get_ket [.str [.c1, .c0]] []
  let ook ← get_ket [.str [.c1, .c1]] []
  pure (Mat.add (Mat.add (Mat.add (Mat.kron zzk zzb)
                                  (Mat.kron ozk zob))
                         (Mat.kron zok ozb))
                (Mat.kron ook oob))

/-- `|0⟩⟨0|` built exactly as in `identity_gate_helper`:
`np.kron(get_ket(0), get_bra(0))` (and `get_ket(0) = .ok zero_ket`,
`get_bra(0) = .ok zero_bra`, see `get_ket_zero_eval`). -/
def zeroProd : Mat := Mat.kron zero_ket zero_bra

/-- `|1⟩⟨1|` built as `np.kron(get_ket(1), get_bra(1))`. -/
def oneProd : Mat := Mat.kron one_ket one_bra

/-- `identity_gate_helper(numQubits)` of the source: the list of the `2^n`
outer products `|i⟩⟨i|`, base case `n = 1`, recursive case kron-ing every
`(n-1)`-qubit term with each single-qubit projector.  (At `numQubits = 0`
the source recurses without a base case, i.e. it is undefined there; the
embedding returns `[]`, a value no claim touches.) -/
def identity_gate_helper : ℕ → List Mat
  | 0 => []
  | 1 => [zeroProd, oneProd]
  | n + 2 =>
      (identity_gate_helper (n + 1)).bind fun q =>
        [Mat.kron q zeroProd, Mat.kron q oneProd]

/-- `sum(list)` over a nonempty list of equally-shaped numpy arrays
(Python's `sum` starts from the integer `0`, which numpy treats as the
neutral element for the first array). -/
def matSum : List Mat → Mat
  | [] => ⟨0, 0, fun _ _ => 0⟩
  | m :: ms => ms.foldl Mat.add m

/-- `identity_gate(numQubits)` of the source. -/
def identity_gate (numQubits : ℕ) : Mat :=
  matSum (identity_gate_helper numQubits)

/-- `identityGate(numQubits)` of the source: `np.identity(2 ** numQubits)`. -/
def identityGate (numQubits : ℕ) : Mat :=
  npidentity (qubits_to_bits numQubits)

/-- `quantum_not_gate_matrix(numQubits)` of the source: `[]` for 0, Pauli-X
for 1, the CNOT constant for 2, and for `n > 2` the block recursion
`diag(1,0) ⊗ identityGate(n-1) + diag(0,1) ⊗ quantum_not_gate_matrix(n-1)`. -/
def quantum_not_gate_matrix : ℕ → Mat
  | 0 => ⟨0, 0, fun _ _ => 0⟩
  | 1 => Pauli_X_gate
  | 2 => CNOT_gate
  | n + 3 =>
      Mat.add (Mat.kron (npdiag2 1 0) (identityGate (n + 2)))
              (Mat.kron (npdiag2 0 1) (quantum_not_gate_matrix (n + 2)))

/-- `reverse_quantum_not_gate_matrix(numQubits)` of the source: like the
forward gate but controlled on the opposite diagonal; its recursive case
embeds the *forward* `quantum_not_gate_matrix(numQubits - 1)`. -/
def reverse_quantum_not_gate_matrix : ℕ → Mat
  | 0 => ⟨0, 0, fun _ _ => 0⟩
  | 1 => Pauli_X_gate
  | 2 =>
      Mat.add (Mat.kron (npdiag2 0 1) (npidentity 2))
              (Mat.kron (npdiag2 1 0) Pauli_X_gate)
  | n + 3 =>
      Mat.add (Mat.kron (npdiag2 0 1) (identityGate (n + 2)))
              (Mat.kron (npdiag2 1 0) (quantum_not_gate_matrix (n + 2)))

/-! ## State/permutation utilities and the modular-exponentiation builders -/

/-- The four `-= 1` / `+= 1` mutations the pair loop of
`applied_swap_gate` applies to `swapping_gate_matrix` for a pair
`(q0, q1)`. -/
def asgUpdate (sgm : ℕ → ℕ → K) (q0 q1 : ℕ) : ℕ → ℕ → K :=
  fun i j =>
    sgm i j
      - (if i = 2 * q0 + 1 ∧ j = 2 * q0 + 1 then 1 else 0)
      - (if i = 2 * q1 ∧ j = 2 * q1 then 1 else 0)
      + (if i = 2 * q0 + 1 ∧ j = 2 * q1 then 1 else 0)
      + (if i = 2 * q1 ∧ j = 2 * q0 + 1 then 1 else 0)

/-- One iteration of the pair loop of `applied_swap_gate`: given the running
`swapping_gate_matrix` (as an entry function over an `n × n` array) and the
running 1-D `swapped_qubit_matrix`, process the pair
`(args[argv], args[argv+1])`: when the two diagonal entries probed by the
source are nonzero, mutate the swapping matrix and right-multiply the
running vector by it. -/
def asgPairStep (n : ℕ) (args : List ℕ) (st : (ℕ → ℕ → K) × Mat)
    (argv : ℕ) : Except PyErr ((ℕ → ℕ → K) × Mat) :=
  if st.1 (2 * args.getD argv 0 + 1) (2 * args.getD argv 0 + 1) ≠ 0 ∧
      st.1 (2 * args.getD (argv + 1) 0) (2 * args.getD (argv + 1) 0) ≠ 0 then
    npdot st.2
        ⟨n, n, asgUpdate st.1 (args.getD argv 0) (args.getD (argv + 1) 0)⟩ >>=
      fun sw' =>
        .ok (asgUpdate st.1 (args.getD argv 0) (args.getD (argv + 1) 0), sw')
  else .ok st

/-- `applied_swap_gate(qubits, *args)` of the source.  For a non-column
input the diagonal is first extracted into a 1-D row; with no `args` the
row is multiplied by `swap_gate ⊗ I`; otherwise the pair loop runs over
`range(len(args) / 2)`; finally a non-column input is rebuilt with
`np.diag`.  Shape-mismatched `np.dot` raises `ValueError` as in numpy.
The source tests its `vector_start` flag twice (once to pick the working
1-D row, once to decide whether to rebuild with `np.diag`); the embedding
splits on it once, duplicating the two inner branches — the branch bodies
are the source's, unchanged. -/
def applied_swap_gate (qubits : Mat) (args : List ℕ) : Except PyErr Mat :=
  if qubits.cols = 1 then
    if args.isEmpty then
      npdot qubits
        (Mat.kron swap_gate (npidentity (qubits.rows / swap_gate.rows)))
    else
      (List.range (args.length / 2)).foldlM
          (asgPairStep qubits.rows args)
          ((fun i j => if i = j then (1 : K) else 0), qubits) >>=
        fun st => .ok st.2
  else
    if args.isEmpty then
      npdot ⟨1, qubits.rows, fun _ j => qubits.entries j j⟩
          (Mat.kron swap_gate (npidentity (qubits.rows / swap_gate.rows))) >>=
        fun res => .ok (npdiagOfRow res)
    else
      (List.range (args.length / 2)).foldlM
          (asgPairStep qubits.rows args)
          ((fun i j => if i = j then (1 : K) else 0),
           ⟨1, qubits.rows, fun _ j => qubits.entries j j⟩) >>=
        fun st => .ok (npdiagOfRow st.2)

/-- Sequence of three `applied_swap_gate` calls (the 3-cycle branches of
`c_amod15` / `c_amodb`). -/
def asg3 (m : Mat) (p1 p2 p3 : List ℕ) : Except PyErr Mat :=
  applied_swap_gate m p1 >>= fun x =>
    applied_swap_gate x p2 >>= fun y =>
      applied_swap_gate y p3

/-- Sequence of two `applied_swap_gate` calls (the 2-2 transposition branch). -/
def asg2 (m : Mat) (p1 p2 : List ℕ) : Except PyErr Mat :=
  applied_swap_gate m p1 >>= fun x => applied_swap_gate x p2

/-- Body of one `for iteration in range(power)` pass shared by `c_amod15`
and `c_amodb`: the four branch conditions are passed in as booleans (each
caller instantiates them with its own membership tests on `a`). -/
def camodCore (c1 c2 c3 c4 : Bool) (m : Mat) : Except PyErr Mat :=
  (if c1 then asg3 m [0, 1] [1, 2] [2, 3] else .ok m) >>= fun m1 =>
    (if c2 then asg3 m1 [2, 3] [1, 2] [0, 1] else .ok m1) >>= fun m2 =>
      (if c3 then asg2 m2 [1, 3] [0, 2] else .ok m2) >>= fun m3 =>
        if c4 then
          npdot (Mat.kron Pauli_X_gate (npidentity (m3.rows / 2))) m3
        else .ok m3

/-- `for iteration in range(power)` over a fallible loop body. -/
def iterM (step : Mat → Except PyErr Mat) : ℕ → Mat → Except PyErr Mat
  | 0, m => .ok m
  | n + 1, m => step m >>= iterM step n

/-- One loop pass of `c_amod15`, with the branch conditions
`a in [2, 13]`, `a in [7, 8]`, `a == 11`, `a in [7, 11, 13]`. -/
def camodStep15 (a : ℤ) (m : Mat) : Except PyErr Mat :=
  camodCore (a == 2 || a == 13) (a == 7 || a == 8) (a == 11)
            (a == 7 || a == 11 || a == 13) m

/-- One loop pass of `c_amodb`.  The source compares the integer `a` with
the Python floats `(b - 1) / 2` and `(b - 1) / 2 + 1`: the division is the
correctly-rounded double `rnd53Z (b - 1) / 2` and the `+ 1` is a float
addition, rounded again; comparing an `int` with a `float` in Python is
exact, modelled as equality in ℚ. -/
def camodStepB (a b : ℤ) (m : Mat) : Except PyErr Mat :=
  camodCore (a == 2 || a == b - 2)
            ((a : ℚ) == (rnd53Z (b - 1) : ℚ) / 2 ||
             (a : ℚ) == (rnd53Z (rnd53Z (b - 1) + 2) : ℚ) / 2)
            (a == b - 4)
            ((a : ℚ) == (rnd53Z (b - 1) : ℚ) / 2 || a == b - 4 || a == b - 2) m

/-- `c_amod15(a, power)` of the source: raise `ValueError` unless
`a in [2, 7, 8, 11, 13]`, otherwise start from `get_qubit_matrix(4)` and
run the loop body `power` times. -/
def c_amod15 (a : ℤ) (power : ℕ) : Except PyErr Mat :=
  if a ∈ ([2, 7, 8, 11, 13] : List ℤ) then
    get_qubit_matrix 4 [] >>= iterM (camodStep15 a) power
  else .error .valueError

/-- `c_amodb(a, power, b)` of the source: build the whitelist
`[2, (b-1)/2, (b-1)/2+1, b-4, b-2]` — evaluating `(b - 1) / 2` raises
`OverflowError` when the quotient leaves the double range, and otherwise
produces the correctly-rounded double `rnd53Z (b - 1) / 2`, to which the
`+ 1` is a float addition rounded again — then raise `ValueError` unless
the exact integer `a` equals one of the elements, otherwise start from
`get_qubit_matrix(4)` and run the loop body `power` times. -/
def c_amodb (a : ℤ) (power : ℕ) (b : ℤ) : Except PyErr Mat :=
  if 2 ^ 1025 - 2 ^ 971 ≤ (b - 1).natAbs then .error .overflowError
  else if (a : ℚ) ∈ ([2, (rnd53Z (b - 1) : ℚ) / 2,
                 (rnd53Z (rnd53Z (b - 1) + 2) : ℚ) / 2,
                 (b : ℚ) - 4, (b : ℚ) - 2] : List ℚ) then
    get_qubit_matrix 4 [] >>= iterM (camodStepB a b) power
  else .error .valueError

/-! ## Shor factoring orchestrator -/

namespace FactorFuncs

/-- Modelled from the spec: `FactoringFunctions.gcd` lives in
`src/MiscFunctions.py`, which is not part of the sources; the spec gives
its contract as `gcd(x, y) -> int`, the greatest common divisor. -/
def gcd (x y : ℕ) : ℕ := Nat.gcd x y

/-- Downward search for the integer square root: the largest `k ≤ bound`
with `k² ≤ n`. -/
def isqrtAux : ℕ → ℕ → ℕ
  | 0, _ => 0
  | k + 1, n => if (k + 1) ^ 2 ≤ n then k + 1 else isqrtAux k n

/-- Modelled from the spec: `FactoringFunctions.isqrt` lives in
`src/MiscFunctions.py`, which is not part of the sources; the spec gives
its contract as an integer square root consistent with
`isqrt(x)**2 == x` being the perfect-square test.  `isqrt n` is the largest
`k` with `k² ≤ n`. -/
def isqrt (n : ℕ) : ℕ := isqrtAux n n

end FactorFuncs

/-- `guessFactor ** (period / 2)` of the source: CPython computes
`int ** float` as a correctly-rounded double, so a successful result is the
53-bit rounding `rnd53 (g ^ e)` of the exact power, and `OverflowError` is
raised when the true value is at least `2^1024 - 2^970`, the smallest real
that rounds to infinity. -/
def powF (g e : ℕ) : Except PyErr ℕ :=
  if g ^ e < 2 ^ 1024 - 2 ^ 970 then .ok (rnd53 (g ^ e))
  else .error .overflowError

/-- `num /= 2` of the stripping loop of the source: CPython evaluates `int / int`
as a correctly-rounded double and raises `OverflowError` when the quotient
is at least `2^1024 - 2^970` (rounds to infinity). -/
def stripDiv2 (num : ℕ) : Except PyErr ℕ :=
  if num / 2 < 2 ^ 1024 - 2 ^ 970 then .ok (rnd53 (num / 2))
  else .error .overflowError

/-- The common exit path of `ShorFactoringAlgorithmClassical`: remove every
`1` from the accumulator (`while 1 in factorization: factorization.remove(1)`)
and return `sorted(factorization)`. -/
def finalize (l : List ℕ) : List ℕ :=
  List.insertionSort (· ≤ ·) (l.filter fun x => x ≠ 1)

/-- Outcome of one pass of the `for i in range(limit)` loop: either a
`return` with a finished factor list, or continuation with the updated
working cofactor and accumulator. -/
inductive StepOut where
  | done (res : List ℕ)
  | cont (num : ℕ) (acc : List ℕ)

/-
One pass of the main loop of `ShorFactoringAlgorithmClassical` is split
over the next four definitions.  `pf` is the pluggable period function
(`ValueError`s are modelled as `.error`), `oracle i` drives
`random.randint(3, num - 1)` (the sample is `3 + oracle i % (num - 3)`,
covering exactly the Python range; when `num - 1 < 3` the source call
raises `ValueError`, which the source catches and `continue`s).
`guessFactor ** (period / 2)` is computed in binary64: the power is
rounded (`powF`), and the subsequent `+ 1` / `- 1` are float additions,
rounded again (`rnd53`) before `int()` reads the integer-valued float off
exactly — above `2^53` the three values can coincide, which is the C3
divergence.  Arithmetic on the working cofactor itself is kept exact:
every `num /= ...` of the main loop divides by a divisor of `num`, so the
float stays integral, and it is exactly representable whenever it is below
`2^53` (the huge-input `OverflowError` of the stripping division is
modelled separately by `stripDiv2`; `int(np.sqrt(num))` in the
perfect-square branch is modelled as the exact root, which matches the
source for square cofactors below `2^53`).  `shorGuess` is the part of the
pass that follows a successful `random.randint` sample `g`; `shorStep`
wires in the sampling and the three checks that precede it.
-/

/-- The factor-extraction tail of one loop pass.  `xp` and `xm` are the
values of `int(g ** (p / 2) + 1)` and `int(g ** (p / 2) - 1)`: the caller
computes them from the rounded float power by one more float rounding
(above `2^53` they can be equal).  When neither is divisible by the
cofactor, append `gcd(xp, num)` and `gcd(xm, num)` and divide the cofactor
by `gcd(xp, num)` and then by the recomputed `gcd(xm, num')`; when
`period == 2`, additionally pull `gcd(g, num'')` twice; with
`quick_compute` the remaining cofactor is appended and the loop returns.
The source computes these with sequential reassignments; the embedding
writes the final expressions out (splitting on `period == 2` first),
which yields the same values. -/
def shorExtract (qc : Bool) (num : ℕ) (acc : List ℕ) (g p xp xm : ℕ) : StepOut :=
  if xp % num = 0 ∨ xm % num = 0 then .cont num acc
  else if p = 2 then
    if qc then
      .done (finalize
        (acc ++ [FactorFuncs.gcd xp num, FactorFuncs.gcd xm num] ++
            [FactorFuncs.gcd g
              (num / FactorFuncs.gcd xp num /
                FactorFuncs.gcd xm (num / FactorFuncs.gcd xp num)),
             FactorFuncs.gcd g
              (num / FactorFuncs.gcd xp num /
                  FactorFuncs.gcd xm (num / FactorFuncs.gcd xp num) /
                FactorFuncs.gcd g
                  (num / FactorFuncs.gcd xp num /
                    FactorFuncs.gcd xm
                      (num / FactorFuncs.gcd xp num)))] ++
          [num / FactorFuncs.gcd xp num /
              FactorFuncs.gcd xm (num / FactorFuncs.gcd xp num) /
              FactorFuncs.gcd g
                (num / FactorFuncs.gcd xp num /
                  FactorFuncs.gcd xm (num / FactorFuncs.gcd xp num)) /
              FactorFuncs.gcd g
                (num / FactorFuncs.gcd xp num /
                    FactorFuncs.gcd xm (num / FactorFuncs.gcd xp num) /
                  FactorFuncs.gcd g
                    (num / FactorFuncs.gcd xp num /
                      FactorFuncs.gcd xm
                        (num / FactorFuncs.gcd xp num)))]))
    else
      .cont
        (num / FactorFuncs.gcd xp num /
            FactorFuncs.gcd xm (num / FactorFuncs.gcd xp num) /
            FactorFuncs.gcd g
              (num / FactorFuncs.gcd xp num /
                FactorFuncs.gcd xm (num / FactorFuncs.gcd xp num)) /
            FactorFuncs.gcd g
              (num / FactorFuncs.gcd xp num /
                  FactorFuncs.gcd xm (num / FactorFuncs.gcd xp num) /
                FactorFuncs.gcd g
                  (num / FactorFuncs.gcd xp num /
                    FactorFuncs.gcd xm
                      (num / FactorFuncs.gcd xp num))))
        (acc ++ [FactorFuncs.gcd xp num, FactorFuncs.gcd xm num] ++
          [FactorFuncs.gcd g
            (num / FactorFuncs.gcd xp num /
              FactorFuncs.gcd xm (num / FactorFuncs.gcd xp num)),
           FactorFuncs.gcd g
            (num / FactorFuncs.gcd xp num /
                FactorFuncs.gcd xm (num / FactorFuncs.gcd xp num) /
              FactorFuncs.gcd g
                (num / FactorFuncs.gcd xp num /
                  FactorFuncs.gcd xm
                    (num / FactorFuncs.gcd xp num)))])
  else
    if qc then
      .done (finalize
        (acc ++ [FactorFuncs.gcd xp num, FactorFuncs.gcd xm num] ++
          [num / FactorFuncs.gcd xp num /
            FactorFuncs.gcd xm (num / FactorFuncs.gcd xp num)]))
    else
      .cont
        (num / FactorFuncs.gcd xp num /
          FactorFuncs.gcd xm (num / FactorFuncs.gcd xp num))
        (acc ++ [FactorFuncs.gcd xp num, FactorFuncs.gcd xm num])

/-- The `period % 2 != 1` branch: compute `g ** (p / 2)` in floating point
(`powF`, which may overflow — caught, pass retried), form
`int(x + 1)` and `int(x - 1)` with float additions (`rnd53`), and hand
over to `shorExtract`. -/
def shorPeriod (pf : ℕ → ℕ → Except PyErr ℕ) (qc : Bool)
    (num : ℕ) (acc : List ℕ) (g p : ℕ) : StepOut :=
  if p % 2 = 1 then .cont num acc
  else
    match powF g (p / 2) with
    | .error _ => .cont num acc
    | .ok x => shorExtract qc num acc g p (rnd53 (x + 1)) (rnd53 (x - 1))

def shorGuess (pf : ℕ → ℕ → Except PyErr ℕ) (qc : Bool)
    (num : ℕ) (acc : List ℕ) (g : ℕ) : StepOut :=
  if g = num ∨ g % num = 0 then .cont num acc
  else
    match pf num g with
    | .error _ => .cont num acc
    | .ok p => shorPeriod pf qc num acc g p

/-- One full pass of the main loop: the `num == 1` and perfect-square
`return`s, the degenerate-range retry of `random.randint` (when `num < 4`),
and otherwise `shorGuess` on the sampled candidate. -/
def shorStep (pf : ℕ → ℕ → Except PyErr ℕ) (oracle : ℕ → ℕ) (qc : Bool)
    (i num : ℕ) (acc : List ℕ) : StepOut :=
  if num = 1 then .done (finalize (acc ++ [num]))
  else if FactorFuncs.isqrt num ^ 2 = num then
    .done (finalize
      (acc ++ [FactorFuncs.isqrt num, FactorFuncs.isqrt num,
               num / FactorFuncs.isqrt num ^ 2]))
  else if num < 4 then .cont num acc
  else shorGuess pf qc num acc (3 + oracle i % (num - 3))

/-- The `for i in range(limit)` loop, fuel-indexed: with fuel `0` the loop
has exhausted its `limit` iterations and the source appends the remaining
cofactor and returns. -/
def shorLoop (pf : ℕ → ℕ → Except PyErr ℕ) (oracle : ℕ → ℕ) (qc : Bool) :
    ℕ → ℕ → List ℕ → List ℕ
  | 0, num, acc => finalize (acc ++ [num])
  | fuel + 1, num, acc =>
    match shorStep pf oracle qc (fuel + 1) num acc with
    | .done res => res
    | .cont n a => shorLoop pf oracle qc fuel n a

/-- The `while num % p == 0: factorization.append(p); num /= p` loops of the
source, as a big-step relation (the loop does not terminate on `num = 0`,
so it cannot be a total function): `StripRel p num l r` holds when the loop
started at `num` terminates leaving final cofactor `r` after appending `l`.
The division is kept exact; the `OverflowError` that CPython raises when a
true-division quotient leaves the double range is modelled by `stripDiv2`
and is the C4 divergence. -/
inductive StripRel (p : ℕ) : ℕ → List ℕ → ℕ → Prop where
  | done {num : ℕ} (h : num % p ≠ 0) : StripRel p num [] num
  | step {num : ℕ} {l : List ℕ} {r : ℕ} (h : num % p = 0)
      (ih : StripRel p (num / p) l r) : StripRel p num (p :: l) r

/-- Big-step semantics of `ShorFactoringAlgorithmClassical(num, limit, …)`:
first strip factors of 2, then factors of 5, then run the bounded main loop
on the remaining cofactor with the stripped factors as accumulator. -/
def ShorFactoringAlgorithmClassical (pf : ℕ → ℕ → Except PyErr ℕ)
    (oracle : ℕ → ℕ) (num limit : ℕ) (qc : Bool) (res : List ℕ) : Prop :=
  ∃ l2 r2 l5 r5, StripRel 2 num l2 r2 ∧ StripRel 5 r2 l5 r5 ∧
    res = shorLoop pf oracle qc limit r5 (l2 ++ l5)

/-! ## Claim theorems: basis builder and fixed gates -/

/-- The 2-dimensional primitive ket for a bit value. -/
def intPrimKet (x : ℕ) : Mat := if x = 0 then zero_ket else one_ket

/-- The 2-dimensional primitive bra for a bit value. -/
def intPrimBra (x : ℕ) : Mat := if x = 0 then zero_bra else one_bra

/-- Sanity: `get_ket(0)` and `get_bra(0)` evaluate to the primitive vectors
used by the gate definitions. -/
theorem get_ket_zero_eval :
    get_ket [BKArg.nat 0] [] = Except.ok zero_ket ∧
    get_bra [BKArg.nat 0] [] = Except.ok zero_bra ∧
    get_ket [BKArg.nat 1] [] = Except.ok one_ket ∧
    get_bra [BKArg.nat 1] [] = Except.ok one_bra :=
  ⟨rfl, rfl, rfl, rfl⟩

/-- C1 (counterexample): the claim says `get_ket(x, y)` equals
`primitive(y) ⊗ primitive(x)` with the *last* positional argument `y` most
significant; at `x = 0, y = 1` the code instead returns
`|0⟩ ⊗ |1⟩ = (0,1,0,0)ᵀ`, not `|1⟩ ⊗ |0⟩ = (0,0,1,0)ᵀ`. -/
theorem c1_counterexample :
    ¬ ExEq (get_ket [BKArg.nat 0, BKArg.nat 1] [])
        (Except.ok (Mat.kron one_ket zero_ket)) :=
  of_decide_eq_false (by with_unfolding_all rfl)

/-- C1 (amended): positional arguments are iterated in reverse, but each new
factor is placed as the *left* (more significant) Kronecker factor, so the
*first* positional argument ends up most significant:
`get_ket(x, y) = primitive(x) ⊗ primitive(y)` (and likewise for `get_bra`)
for all bits `x, y ∈ {0, 1}`. -/
theorem c1_first_arg_most_significant :
    ∀ x y : ℕ, x ≤ 1 → y ≤ 1 →
      ExEq (get_ket [BKArg.nat x, BKArg.nat y] [])
        (Except.ok (Mat.kron (intPrimKet x) (intPrimKet y))) ∧
      ExEq (get_bra [BKArg.nat x, BKArg.nat y] [])
        (Except.ok (Mat.kron (intPrimBra x) (intPrimBra y))) := by
  intro x y hx hy
  interval_cases x <;> interval_cases y <;>
    exact ⟨of_decide_eq_true (by with_unfolding_all rfl),
           of_decide_eq_true (by with_unfolding_all rfl)⟩

/-- C1 (witness): the amended statement at `x = 0, y = 1`. -/
theorem c1_witness :
    ExEq (get_ket [BKArg.nat 0, BKArg.nat 1] [])
      (Except.ok (Mat.kron (intPrimKet 0) (intPrimKet 1))) ∧
    ExEq (get_bra [BKArg.nat 0, BKArg.nat 1] [])
      (Except.ok (Mat.kron (intPrimBra 0) (intPrimBra 1))) :=
  c1_first_arg_most_significant 0 1 (by decide) (by decide)

/-- C2: the source sizes the vector with the smallest `k ≥ 1` such that
`2^k ≥ v` (the loop guard is `qubits_to_bits(num_qubits) < argv`), not
`2^k > v` as the claim states.  For `v` an exact power of two the two
differ: at `v = 2` the loop picks `k = 1`, `get_qubit_vector` then writes
index `2` into a `2`-dimensional vector and numpy raises `IndexError`
(likewise at `v = 4`), while the claim asserts the call succeeds.  For
`v = 3` (not a power of two) the mechanism works as claimed and yields the
`4`-dimensional basis vector with a `1` at index `3`. -/
theorem c2_power_of_two_index_error :
    get_ket [BKArg.nat 2] [] = Except.error PyErr.indexError ∧
    get_bra [BKArg.nat 2] [] = Except.error PyErr.indexError ∧
    get_ket [BKArg.nat 4] [] = Except.error PyErr.indexError ∧
    ExEq (get_ket [BKArg.nat 3] []) (Except.ok (matOf [[0], [0], [0], [1]])) :=
  ⟨rfl, rfl, rfl, of_decide_eq_true (by with_unfolding_all rfl)⟩

/-- C7: each outer-product gate constructor agrees exactly with its retained
fixed-constant form. -/
theorem c7_gate_constants_agree :
    ExEq Pauli_X_Gate (Except.ok Pauli_X_gate) ∧
    ExEq Pauli_Y_Gate (Except.ok Pauli_Y_gate) ∧
    ExEq Pauli_Z_Gate (Except.ok Pauli_Z_gate) ∧
    ExEq Hadamard_Gate (Except.ok Hadamard_gate) ∧
    ExEq CNOT_Gate (Except.ok CNOT_gate) ∧
    ExEq Swap_Gate (Except.ok swap_gate) :=
  ⟨of_decide_eq_true (by with_unfolding_all rfl),
   of_decide_eq_true (by with_unfolding_all rfl),
   of_decide_eq_true (by with_unfolding_all rfl),
   of_decide_eq_true (by with_unfolding_all rfl),
   of_decide_eq_true (by with_unfolding_all rfl),
   of_decide_eq_true (by with_unfolding_all rfl)⟩

/-- C9: for every `numQubits ≥ 3`, `reverse_quantum_not_gate_matrix` equals
`diag(0,1) ⊗ I_{2^(n-1)} + diag(1,0) ⊗ quantum_not_gate_matrix(n-1)` — the
controlled block embeds the *forward* gate — and consequently (second
conjunct) at `numQubits = 3` it differs from the full mirror that would
recurse on the reverse gate. -/
theorem c9_reverse_not_embeds_forward :
    (∀ n : ℕ, 3 ≤ n →
      Mat.eq (reverse_quantum_not_gate_matrix n)
        (Mat.add (Mat.kron (npdiag2 0 1) (identityGate (n - 1)))
                 (Mat.kron (npdiag2 1 0) (quantum_not_gate_matrix (n - 1))))) ∧
    ¬ Mat.eq (reverse_quantum_not_gate_matrix 3)
        (Mat.add (Mat.kron (npdiag2 0 1) (identityGate 2))
                 (Mat.kron (npdiag2 1 0) (reverse_quantum_not_gate_matrix 2))) := by
  constructor
  · intro n hn
    obtain ⟨m, rfl⟩ : ∃ m, n = m + 3 := ⟨n - 3, by omega⟩
    exact Mat.eq_refl _
  · exact of_decide_eq_false (by with_unfolding_all rfl)

/-- C9 (witness): the structural equation at `numQubits = 3`. -/
theorem c9_witness :
    Mat.eq (reverse_quantum_not_gate_matrix 3)
      (Mat.add (Mat.kron (npdiag2 0 1) (identityGate (3 - 1)))
               (Mat.kron (npdiag2 1 0) (quantum_not_gate_matrix (3 - 1)))) :=
  c9_reverse_not_embeds_forward.1 3 (by decide)

/-! ## Claim C8: the recursive identity gate -/

theorem foldl_add_entries (ms : List Mat) (acc : Mat) (i j : ℕ) :
    (ms.foldl Mat.add acc).entries i j =
      acc.entries i j + ksum (ms.map fun q => q.entries i j) := by
  induction ms generalizing acc with
  | nil => exact (K.add_zero _).symm
  | cons m ms ih =>
      show ((ms.foldl Mat.add (Mat.add acc m))).entries i j = _
      rw [ih]
      show acc.entries i j + m.entries i j + _ = _
      rw [K.add_assoc]
      rfl

theorem foldl_add_rows (ms : List Mat) (acc : Mat) :
    (ms.foldl Mat.add acc).rows = acc.rows := by
  induction ms generalizing acc with
  | nil => rfl
  | cons m ms ih => exact ih (Mat.add acc m)

theorem foldl_add_cols (ms : List Mat) (acc : Mat) :
    (ms.foldl Mat.add acc).cols = acc.cols := by
  induction ms generalizing acc with
  | nil => rfl
  | cons m ms ih => exact ih (Mat.add acc m)

theorem matSum_cons_entries (m : Mat) (ms : List Mat) (i j : ℕ) :
    (matSum (m :: ms)).entries i j =
      ksum ((m :: ms).map fun q => q.entries i j) := by
  show (ms.foldl Mat.add m).entries i j = _
  rw [foldl_add_entries]
  rfl

theorem ksum_map_bind_pair (l : List Mat) (g : Mat → K) (f1 f2 : Mat → Mat) :
    ksum (((l.bind fun q => [f1 q, f2 q]).map g)) =
      ksum (l.map fun q => g (f1 q) + g (f2 q)) := by
  induction l with
  | nil => rfl
  | cons x l ih =>
      show ksum (List.map g ([f1 x, f2 x] ++ l.bind fun q => [f1 q, f2 q])) = _
      rw [List.map_append, ksum_append, ih]
      show g (f1 x) + (g (f2 x) + 0) + _ = g (f1 x) + g (f2 x) + _
      rw [K.add_zero]
      rfl

theorem identity_gate_helper_dims :
    ∀ n : ℕ, ∀ m ∈ identity_gate_helper (n + 1),
      m.rows = 2 ^ (n + 1) ∧ m.cols = 2 ^ (n + 1) := by
  intro n
  induction n with
  | zero =>
      intro m hm
      simp only [identity_gate_helper, List.mem_cons, List.mem_singleton,
        List.not_mem_nil, or_false] at hm
      rcases hm with rfl | rfl
      · exact ⟨rfl, rfl⟩
      · exact ⟨rfl, rfl⟩
  | succ n ih =>
      intro m hm
      rw [show identity_gate_helper (n + 2) =
          (identity_gate_helper (n + 1)).bind
            (fun q => [Mat.kron q zeroProd, Mat.kron q oneProd]) from rfl,
        List.mem_bind] at hm
      obtain ⟨q, hq, hm⟩ := hm
      obtain ⟨hr, hc⟩ := ih q hq
      simp only [List.mem_cons, List.mem_singleton, List.not_mem_nil,
        or_false] at hm
      rcases hm with rfl | rfl <;>
        · refine ⟨?_, ?_⟩ <;> show _ * 2 = _
          · rw [hr, ← pow_succ]
          · rw [hc, ← pow_succ]

theorem proj_sum_entries :
    ∀ r c : ℕ, r < 2 → c < 2 →
      zeroProd.entries r c + oneProd.entries r c = (if r = c then 1 else 0) := by
  intro r c hr hc
  interval_cases r <;> interval_cases c <;> with_unfolding_all rfl

theorem identity_gate_helper_sum :
    ∀ n i j : ℕ, i < 2 ^ (n + 1) → j < 2 ^ (n + 1) →
      ksum ((identity_gate_helper (n + 1)).map fun q => q.entries i j) =
        (if i = j then 1 else 0) := by
  intro n
  induction n with
  | zero =>
      intro i j hi hj
      show zeroProd.entries i j + (oneProd.entries i j + 0) = _
      rw [K.add_zero, proj_sum_entries i j hi hj]
  | succ n ih =>
      intro i j hi hj
      rw [show identity_gate_helper (n + 2) =
          (identity_gate_helper (n + 1)).bind
            (fun q => [Mat.kron q zeroProd, Mat.kron q oneProd]) from rfl,
        ksum_map_bind_pair]
      have ent : ∀ q : Mat,
          (Mat.kron q zeroProd).entries i j + (Mat.kron q oneProd).entries i j =
            q.entries (i / 2) (j / 2) *
              (zeroProd.entries (i % 2) (j % 2) + oneProd.entries (i % 2) (j % 2)) := by
        intro q
        exact (K.mul_add _ _ _).symm
      calc ksum ((identity_gate_helper (n + 1)).map fun q =>
              (Mat.kron q zeroProd).entries i j + (Mat.kron q oneProd).entries i j)
          = ksum ((identity_gate_helper (n + 1)).map fun q =>
              q.entries (i / 2) (j / 2) *
                (zeroProd.entries (i % 2) (j % 2) + oneProd.entries (i % 2) (j % 2))) := by
            rw [show ((fun q : Mat =>
                (Mat.kron q zeroProd).entries i j + (Mat.kron q oneProd).entries i j)) =
                (fun q : Mat => q.entries (i / 2) (j / 2) *
                  (zeroProd.entries (i % 2) (j % 2) + oneProd.entries (i % 2) (j % 2)))
              from funext ent]
        _ = ksum ((identity_gate_helper (n + 1)).map fun q =>
              q.entries (i / 2) (j / 2)) *
                (zeroProd.entries (i % 2) (j % 2) + oneProd.entries (i % 2) (j % 2)) :=
            ksum_map_mul_right _ _ _
        _ = (if i / 2 = j / 2 then 1 else 0) * (if i % 2 = j % 2 then 1 else 0) := by
            rw [ih (i / 2) (j / 2)
                ((Nat.div_lt_iff_lt_mul (by norm_num)).mpr (by rw [← pow_succ]; exact hi))
                ((Nat.div_lt_iff_lt_mul (by norm_num)).mpr (by rw [← pow_succ]; exact hj)),
              proj_sum_entries (i % 2) (j % 2) (Nat.mod_lt _ (by norm_num))
                (Nat.mod_lt _ (by norm_num))]
        _ = (if i = j then 1 else 0) := by
            by_cases h1 : i / 2 = j / 2
            · by_cases h2 : i % 2 = j % 2
              · have hij : i = j := by omega
                rw [if_pos h1, if_pos h2, if_pos hij]
                exact K.one_mul 1
              · have hij : i ≠ j := fun h => h2 (by rw [h])
                rw [if_pos h1, if_neg h2, if_neg hij]
                exact K.mul_zero 1
            · have hij : i ≠ j := fun h => h1 (by rw [h])
              rw [if_neg h1, if_neg hij]
              exact K.zero_mul _

theorem identity_gate_helper_ne_nil (n : ℕ) :
    identity_gate_helper (n + 1) ≠ [] := by
  cases n with
  | zero => exact fun h => List.noConfusion h
  | succ n =>
      obtain ⟨m, ms, hcons⟩ :=
        List.exists_cons_of_ne_nil (identity_gate_helper_ne_nil n)
      rw [show identity_gate_helper (n + 2) =
          (identity_gate_helper (n + 1)).bind
            (fun q => [Mat.kron q zeroProd, Mat.kron q oneProd]) from rfl,
        hcons]
      exact fun h => List.noConfusion h

/-- C8: for every `numQubits ≥ 1`, the recursive outer-product construction
`identity_gate` yields exactly the `2^numQubits × 2^numQubits` identity
matrix `identityGate(numQubits)`. -/
theorem c8_identity_gate_eq :
    ∀ n : ℕ, 1 ≤ n → Mat.eq (identity_gate n) (identityGate n) := by
  intro n hn
  obtain ⟨m, rfl⟩ : ∃ m, n = m + 1 := ⟨n - 1, by omega⟩
  obtain ⟨m0, ms, hcons⟩ :=
    List.exists_cons_of_ne_nil (identity_gate_helper_ne_nil m)
  have hd := identity_gate_helper_dims m m0 (by rw [hcons]; exact List.mem_cons_self _ _)
  refine ⟨?_, ?_, ?_⟩
  · show (matSum (identity_gate_helper (m + 1))).rows = 2 ^ (m + 1)
    rw [hcons]
    show (ms.foldl Mat.add m0).rows = _
    rw [foldl_add_rows]
    exact hd.1
  · show (matSum (identity_gate_helper (m + 1))).cols = 2 ^ (m + 1)
    rw [hcons]
    show (ms.foldl Mat.add m0).cols = _
    rw [foldl_add_cols]
    exact hd.2
  · intro i hi j hj
    have hi' : i < 2 ^ (m + 1) := by
      rw [show (identity_gate (m + 1)).rows = 2 ^ (m + 1) by
        show (matSum (identity_gate_helper (m + 1))).rows = _
        rw [hcons]; show (ms.foldl Mat.add m0).rows = _
        rw [foldl_add_rows]; exact hd.1] at hi
      exact hi
    have hj' : j < 2 ^ (m + 1) := by
      rw [show (identity_gate (m + 1)).cols = 2 ^ (m + 1) by
        show (matSum (identity_gate_helper (m + 1))).cols = _
        rw [hcons]; show (ms.foldl Mat.add m0).cols = _
        rw [foldl_add_cols]; exact hd.2] at hj
      exact hj
    show (matSum (identity_gate_helper (m + 1))).entries i j = _
    rw [hcons, matSum_cons_entries, ← hcons,
      identity_gate_helper_sum m i j hi' hj']
    rfl

/-- C8 (witness): the identity at `numQubits = 2`. -/
theorem c8_witness : Mat.eq (identity_gate 2) (identityGate 2) :=
  c8_identity_gate_eq 2 (by decide)

/-! ## Shor orchestrator lemmas -/

theorem stripRel_prod {p num : ℕ} {l : List ℕ} {r : ℕ}
    (h : StripRel p num l r) : l.prod * r = num := by
  induction h with
  | done _ => simp
  | step hmod _ ih =>
      rename_i num' l' r'
      rw [List.prod_cons, mul_assoc, ih,
        Nat.mul_div_cancel' (Nat.dvd_of_mod_eq_zero hmod)]

theorem stripRel_mod {p num : ℕ} {l : List ℕ} {r : ℕ}
    (h : StripRel p num l r) : r % p ≠ 0 := by
  induction h with
  | done hmod => exact hmod
  | step _ _ ih => exact ih

theorem stripRel_dvd {p num : ℕ} {l : List ℕ} {r : ℕ}
    (h : StripRel p num l r) : r ∣ num := by
  induction h with
  | done _ => exact dvd_rfl
  | step hmod _ ih =>
      exact ih.trans (Nat.div_dvd_of_dvd (Nat.dvd_of_mod_eq_zero hmod))

theorem stripRel_ne_zero {p num : ℕ} {l : List ℕ} {r : ℕ}
    (h : StripRel p num l r) : num ≠ 0 := by
  induction h with
  | done hmod =>
      intro h0
      exact hmod (by rw [h0]; exact Nat.zero_mod p)
  | step _ _ ih =>
      intro h0
      exact ih (by rw [h0]; exact Nat.zero_div p)

theorem stripRel_total {p : ℕ} (hp : 2 ≤ p) :
    ∀ num, 1 ≤ num → ∃ l r, StripRel p num l r := by
  intro num
  induction num using Nat.strong_induction_on with
  | _ num ih =>
      intro hnum
      by_cases hmod : num % p = 0
      · have hdvd := Nat.dvd_of_mod_eq_zero hmod
        have hlt : num / p < num :=
          Nat.div_lt_self (by omega) (by omega)
        have hpos : 1 ≤ num / p :=
          Nat.le_div_iff_mul_le (by omega) |>.mpr
            (by have := Nat.le_of_dvd (by omega) hdvd; omega)
        obtain ⟨l, r, hr⟩ := ih (num / p) hlt hpos
        exact ⟨p :: l, r, StripRel.step hmod hr⟩
      · exact ⟨[], num, StripRel.done hmod⟩

theorem filter_ne_one_prod (l : List ℕ) :
    (l.filter fun x => x ≠ 1).prod = l.prod := by
  induction l with
  | nil => rfl
  | cons x l ih =>
      rw [List.filter_cons]
      by_cases hx : x = 1
      · subst hx
        rw [if_neg (by simp), ih, List.prod_cons, one_mul]
      · rw [if_pos (by simp [hx]), List.prod_cons, List.prod_cons, ih]

theorem finalize_prod (l : List ℕ) : (finalize l).prod = l.prod := by
  rw [show (finalize l).prod = (l.filter fun x => x ≠ 1).prod from
    (List.perm_insertionSort _ _).prod_eq, filter_ne_one_prod]

theorem finalize_sorted (l : List ℕ) : (finalize l).Sorted (· ≤ ·) :=
  List.sorted_insertionSort _ _

theorem one_not_mem_finalize (l : List ℕ) : 1 ∉ finalize l := by
  intro hmem
  have := (List.perm_insertionSort (· ≤ ·) (l.filter fun x => x ≠ 1)).mem_iff.mp hmem
  have := List.of_mem_filter this
  simp at this

theorem odd_of_dvd_odd {m n : ℕ} (h : m ∣ n) (hodd : n % 2 = 1) : m % 2 = 1 := by
  rcases Nat.mod_two_eq_zero_or_one m with hm | hm
  · exfalso
    have h2 : 2 ∣ n := (Nat.dvd_of_mod_eq_zero hm).trans h
    omega
  · exact hm

theorem div_dvd_of_gcd (g n : ℕ) : n / FactorFuncs.gcd g n ∣ n := by
  unfold FactorFuncs.gcd
  exact Nat.div_dvd_of_dvd (Nat.gcd_dvd_right g n)

theorem gcd_chain_prod (g n : ℕ) :
    FactorFuncs.gcd g n *
      (FactorFuncs.gcd g (n / FactorFuncs.gcd g n) *
        (n / FactorFuncs.gcd g n / FactorFuncs.gcd g (n / FactorFuncs.gcd g n))) = n := by
  unfold FactorFuncs.gcd
  rw [Nat.mul_div_cancel' (Nat.gcd_dvd_right g (n / Nat.gcd g n)),
    Nat.mul_div_cancel' (Nat.gcd_dvd_right g n)]

theorem gcd_chain_dvd (g n : ℕ) :
    n / FactorFuncs.gcd g n / FactorFuncs.gcd g (n / FactorFuncs.gcd g n) ∣ n := by
  unfold FactorFuncs.gcd
  exact (Nat.div_dvd_of_dvd
    (Nat.gcd_dvd_right g (n / Nat.gcd g n))).trans (div_dvd_of_gcd g n)

theorem gcd_pm_coprime {num x : ℕ} (hodd : num % 2 = 1) (hx : 2 ≤ x) :
    Nat.Coprime (FactorFuncs.gcd (x + 1) num) (FactorFuncs.gcd (x - 1) num) := by
  unfold FactorFuncs.gcd
  set d := Nat.gcd (Nat.gcd (x + 1) num) (Nat.gcd (x - 1) num) with hd
  have hd1 : d ∣ x + 1 := (Nat.gcd_dvd_left _ _).trans (Nat.gcd_dvd_left _ _)
  have hd2 : d ∣ x - 1 := (Nat.gcd_dvd_right _ _).trans (Nat.gcd_dvd_left _ _)
  have hdn : d ∣ num := (Nat.gcd_dvd_left _ _).trans (Nat.gcd_dvd_right _ _)
  have hd2' : d ∣ 2 := by
    have := Nat.dvd_sub' hd1 hd2
    rwa [show x + 1 - (x - 1) = 2 by omega] at this
  show d = 1
  rcases (Nat.dvd_prime Nat.prime_two).mp hd2' with h1 | h2
  · exact h1
  · exfalso
    have : (2 : ℕ) ∣ num := h2 ▸ hdn
    omega
  
theorem gcd_extract {num x : ℕ} (hodd : num % 2 = 1) (hx : 2 ≤ x) :
    FactorFuncs.gcd (x - 1) (num / FactorFuncs.gcd (x + 1) num) =
      FactorFuncs.gcd (x - 1) num ∧
    FactorFuncs.gcd (x + 1) num *
      (FactorFuncs.gcd (x - 1) num *
        (num / FactorFuncs.gcd (x + 1) num / FactorFuncs.gcd (x - 1) num)) = num ∧
    num / FactorFuncs.gcd (x + 1) num / FactorFuncs.gcd (x - 1) num ∣ num := by
  unfold FactorFuncs.gcd
  have hdp : Nat.gcd (x + 1) num ∣ num := Nat.gcd_dvd_right _ _
  have hdm : Nat.gcd (x - 1) num ∣ num := Nat.gcd_dvd_right _ _
  have hco := gcd_pm_coprime hodd hx
  have hdm' : Nat.gcd (x - 1) num ∣ num / Nat.gcd (x + 1) num := by
    have hmul : num = Nat.gcd (x + 1) num *
        (num / Nat.gcd (x + 1) num) := (Nat.mul_div_cancel' hdp).symm
    exact (Nat.Coprime.dvd_of_dvd_mul_left (Nat.coprime_comm.mp hco)
      (hmul ▸ hdm))
  have hgcd_eq : Nat.gcd (x - 1) (num / Nat.gcd (x + 1) num) =
      Nat.gcd (x - 1) num := by
    apply Nat.dvd_antisymm
    · exact Nat.dvd_gcd (Nat.gcd_dvd_left _ _)
        ((Nat.gcd_dvd_right _ _).trans (div_dvd_of_gcd (x + 1) num))
    · exact Nat.dvd_gcd (Nat.gcd_dvd_left _ _) hdm'
  refine ⟨hgcd_eq, ?_, ?_⟩
  · rw [Nat.mul_div_cancel' hdm', Nat.mul_div_cancel' hdp]
  · exact (Nat.div_dvd_of_dvd hdm').trans (div_dvd_of_gcd (x + 1) num)

theorem prod_acc_two (acc : List ℕ) (a b n N : ℕ) (h : a * (b * n) = N) :
    (acc ++ [a, b]).prod * n = acc.prod * N := by
  subst h
  rw [List.prod_append, List.prod_cons, List.prod_cons, List.prod_nil]
  ring

theorem prod_acc_four (acc : List ℕ) (a b c d n N : ℕ)
    (h : a * (b * (c * (d * n))) = N) :
    (acc ++ [a, b] ++ [c, d]).prod * n = acc.prod * N := by
  subst h
  simp only [List.prod_append, List.prod_cons, List.prod_nil]
  ring

theorem prod_snoc (l : List ℕ) (n : ℕ) : (l ++ [n]).prod = l.prod * n := by
  rw [List.prod_append, List.prod_cons, List.prod_nil, mul_one]

theorem shorGuess_shape (pf : ℕ → ℕ → Except PyErr ℕ) (qc : Bool)
    (num : ℕ) (acc : List ℕ) (g : ℕ) :
    (∃ l, shorGuess pf qc num acc g = .done (finalize l)) ∨
    (∃ n a, shorGuess pf qc num acc g = .cont n a) := by
  by_cases hdeg : g = num ∨ g % num = 0
  · exact Or.inr ⟨num, acc, by unfold shorGuess; rw [if_pos hdeg]⟩
  rcases hpf : pf num g with er | p
  · exact Or.inr ⟨num, acc, by unfold shorGuess; rw [if_neg hdeg, hpf]⟩
  have hg : shorGuess pf qc num acc g = shorPeriod pf qc num acc g p := by
    unfold shorGuess
    rw [if_neg hdeg, hpf]
  rw [hg]
  by_cases hp2 : p % 2 = 1
  · exact Or.inr ⟨num, acc, by unfold shorPeriod; rw [if_pos hp2]⟩
  rcases hpow : powF g (p / 2) with er | x
  · exact Or.inr ⟨num, acc, by unfold shorPeriod; rw [if_neg hp2, hpow]⟩
  have hper : shorPeriod pf qc num acc g p =
      shorExtract qc num acc g p (rnd53 (x + 1)) (rnd53 (x - 1)) := by
    unfold shorPeriod
    rw [if_neg hp2, hpow]
  rw [hper]
  by_cases hx0 : rnd53 (x + 1) % num = 0 ∨ rnd53 (x - 1) % num = 0
  · exact Or.inr ⟨num, acc, by unfold shorExtract; rw [if_pos hx0]⟩
  by_cases hp : p = 2
  · cases qc with
    | true =>
        exact Or.inl ⟨_,
          by unfold shorExtract; rw [if_neg hx0, if_pos hp, if_pos rfl]⟩
    | false =>
        exact Or.inr ⟨_, _,
          by unfold shorExtract
             rw [if_neg hx0, if_pos hp, if_neg Bool.false_ne_true]⟩
  · cases qc with
    | true =>
        exact Or.inl ⟨_,
          by unfold shorExtract; rw [if_neg hx0, if_neg hp, if_pos rfl]⟩
    | false =>
        exact Or.inr ⟨_, _,
          by unfold shorExtract
             rw [if_neg hx0, if_neg hp, if_neg Bool.false_ne_true]⟩

theorem shorStep_shape (pf : ℕ → ℕ → Except PyErr ℕ) (oracle : ℕ → ℕ)
    (qc : Bool) (i num : ℕ) (acc : List ℕ) :
    (∃ l, shorStep pf oracle qc i num acc = .done (finalize l)) ∨
    (∃ n a, shorStep pf oracle qc i num acc = .cont n a) := by
  by_cases h1 : num = 1
  · exact Or.inl ⟨_, by unfold shorStep; rw [if_pos h1]⟩
  by_cases hsq : FactorFuncs.isqrt num ^ 2 = num
  · exact Or.inl ⟨_, by unfold shorStep; rw [if_neg h1, if_pos hsq]⟩
  by_cases hlt : num < 4
  · exact Or.inr ⟨num, acc,
      by unfold shorStep; rw [if_neg h1, if_neg hsq, if_pos hlt]⟩
  have hstep : shorStep pf oracle qc i num acc =
      shorGuess pf qc num acc (3 + oracle i % (num - 3)) := by
    unfold shorStep
    rw [if_neg h1, if_neg hsq, if_neg hlt]
  rw [hstep]
  exact shorGuess_shape pf qc num acc _

theorem shorLoop_finalize (pf : ℕ → ℕ → Except PyErr ℕ) (oracle : ℕ → ℕ)
    (qc : Bool) :
    ∀ fuel num acc, ∃ l, shorLoop pf oracle qc fuel num acc = finalize l := by
  intro fuel
  induction fuel with
  | zero => intro num acc; exact ⟨acc ++ [num], rfl⟩
  | succ fuel ih =>
      intro num acc
      rcases shorStep_shape pf oracle qc (fuel + 1) num acc with
        ⟨l, heq⟩ | ⟨n, a, heq⟩
      · refine ⟨l, ?_⟩
        show (match shorStep pf oracle qc (fuel + 1) num acc with
              | .done res => res
              | .cont n a => shorLoop pf oracle qc fuel n a) = finalize l
        rw [heq]
      · obtain ⟨l, hl⟩ := ih n a
        refine ⟨l, ?_⟩
        show (match shorStep pf oracle qc (fuel + 1) num acc with
              | .done res => res
              | .cont n a => shorLoop pf oracle qc fuel n a) = finalize l
        rw [heq]
        exact hl

/-! ## Claim theorems: the factoring orchestrator -/

set_option maxRecDepth 8000 in
/-- C3 (code bug): the claim says the product of the returned factors
equals the input, but `guessFactor ** (period / 2)` is computed in
binary64, and above `2^53` the rounded `int(x + 1)` and `int(x - 1)` can
coincide.  Concrete run: `num = 33`, random draws `12` then `4`, period
function returning `30`.  Then `12 ** 15.0 = 12^15 > 2^53` and both
`int(12^15 + 1)` and `int(12^15 - 1)` round back to `12^15`, so the source
appends `gcd(12^15, 33) = 3` twice while dividing `33` by `3` only once
(the second division is by `gcd(12^15, 11) = 1`); the run terminates with
`[3, 3, 11]`, whose product is `99 ≠ 33`. -/
theorem c3_float_product_violation :
    ShorFactoringAlgorithmClassical (fun _ _ => Except.ok 30) (fun _ => 9)
      33 2 false [3, 3, 11] ∧ ([3, 3, 11] : List ℕ).prod ≠ 33 :=
  ⟨⟨[], 33, [], 33, StripRel.done (by decide), StripRel.done (by decide),
    by decide⟩, by decide⟩

set_option maxRecDepth 8000 in
/-- C4 (code bug): the claim says the call never raises for `num ≥ 1`, but
the stripping loop executes `num /= 2`, which CPython evaluates as
`int / int` true division into a double; at `num = 10^400` the loop guard
`num % 2 == 0` holds and the very first division has quotient
`5 · 10^399`, far beyond the double range, so `OverflowError` is raised
(uncaught — the stripping loops are outside every `try`) instead of a
sorted list being returned. -/
theorem c4_strip_overflow :
    (10 ^ 400 : ℕ) % 2 = 0 ∧
      stripDiv2 (10 ^ 400) = Except.error PyErr.overflowError :=
  ⟨by decide, rfl⟩

/-- C5: each recoverable failure inside the main loop — a degenerate
`random.randint` range (cofactor below 4), a `ValueError` from the pluggable
period function, an `OverflowError` from the float exponentiation — makes
the pass a retry that leaves the cofactor and the accumulator untouched
(first three conjuncts), and regardless of the pluggable function the loop
always returns a plain factor list (last conjunct): no such error escapes
the top-level call. -/
theorem c5_error_recovery :
    ∀ (pf : ℕ → ℕ → Except PyErr ℕ) (oracle : ℕ → ℕ) (qc : Bool)
      (fuel num : ℕ) (acc : List ℕ),
      ((num ≠ 1 ∧ FactorFuncs.isqrt num ^ 2 ≠ num ∧ num < 4) →
        shorLoop pf oracle qc (fuel + 1) num acc =
          shorLoop pf oracle qc fuel num acc) ∧
      (∀ er, num ≠ 1 → FactorFuncs.isqrt num ^ 2 ≠ num → 4 ≤ num →
        pf num (3 + oracle (fuel + 1) % (num - 3)) = .error er →
        shorLoop pf oracle qc (fuel + 1) num acc =
          shorLoop pf oracle qc fuel num acc) ∧
      (∀ p er, num ≠ 1 → FactorFuncs.isqrt num ^ 2 ≠ num → 4 ≤ num →
        pf num (3 + oracle (fuel + 1) % (num - 3)) = .ok p → p % 2 ≠ 1 →
        powF (3 + oracle (fuel + 1) % (num - 3)) (p / 2) = .error er →
        shorLoop pf oracle qc (fuel + 1) num acc =
          shorLoop pf oracle qc fuel num acc) ∧
      (∃ l, shorLoop pf oracle qc (fuel + 1) num acc = finalize l) := by
  intro pf oracle qc fuel num acc
  have hloop : ∀ st, shorStep pf oracle qc (fuel + 1) num acc = st →
      shorLoop pf oracle qc (fuel + 1) num acc =
        (match st with
         | .done res => res
         | .cont n a => shorLoop pf oracle qc fuel n a) := by
    intro st hst
    show (match shorStep pf oracle qc (fuel + 1) num acc with
          | StepOut.done res => res
          | StepOut.cont n a => shorLoop pf oracle qc fuel n a) = _
    rw [hst]
  refine ⟨?_, ?_, ?_, shorLoop_finalize pf oracle qc (fuel + 1) num acc⟩
  · rintro ⟨h1, hsq, hlt⟩
    exact hloop (.cont num acc)
      (by unfold shorStep; rw [if_neg h1, if_neg hsq, if_pos hlt])
  · intro er h1 hsq hge hpf
    refine hloop (.cont num acc) ?_
    unfold shorStep
    rw [if_neg h1, if_neg hsq, if_neg (by omega)]
    by_cases hdeg : 3 + oracle (fuel + 1) % (num - 3) = num ∨
        (3 + oracle (fuel + 1) % (num - 3)) % num = 0
    · unfold shorGuess
      rw [if_pos hdeg]
    · unfold shorGuess
      rw [if_neg hdeg, hpf]
  · intro p er h1 hsq hge hpf hp2 hpow
    refine hloop (.cont num acc) ?_
    unfold shorStep
    rw [if_neg h1, if_neg hsq, if_neg (by omega)]
    by_cases hdeg : 3 + oracle (fuel + 1) % (num - 3) = num ∨
        (3 + oracle (fuel + 1) % (num - 3)) % num = 0
    · unfold shorGuess
      rw [if_pos hdeg]
    · unfold shorGuess
      rw [if_neg hdeg, hpf]
      show shorPeriod pf qc num acc (3 + oracle (fuel + 1) % (num - 3)) p =
        StepOut.cont num acc
      unfold shorPeriod
      rw [if_neg hp2, hpow]

set_option maxRecDepth 8000 in
/-- C5 (witness): a degenerate-range retry at cofactor `3`, a period-function
`ValueError` retry at cofactor `7`, and a float-pow `OverflowError` retry at
cofactor `7` with period `1300` (so `3^650` exceeds the largest double),
each leaving the run identical to one fewer remaining iteration, plus the
result being a plain `finalize`d list. -/
theorem c5_witness :
    (shorLoop (fun _ _ => Except.error PyErr.valueError) (fun _ => 0) false 1 3
        [] =
      shorLoop (fun _ _ => Except.error PyErr.valueError) (fun _ => 0) false 0 3
        []) ∧
    (shorLoop (fun _ _ => Except.error PyErr.valueError) (fun _ => 0) false 1 7
        [] =
      shorLoop (fun _ _ => Except.error PyErr.valueError) (fun _ => 0) false 0 7
        []) ∧
    (shorLoop (fun _ _ => Except.ok 1300) (fun _ => 0) false 1 7 [] =
      shorLoop (fun _ _ => Except.ok 1300) (fun _ => 0) false 0 7 []) ∧
    (∃ l, shorLoop (fun _ _ => Except.error PyErr.valueError) (fun _ => 0)
        false 1 3 [] = finalize l) :=
  ⟨(c5_error_recovery (fun _ _ => .error .valueError) (fun _ => 0) false 0 3
      []).1 (by decide),
   (c5_error_recovery (fun _ _ => .error .valueError) (fun _ => 0) false 0 7
      []).2.1 PyErr.valueError (by decide) (by decide) (by decide) rfl,
   (c5_error_recovery (fun _ _ => .ok 1300) (fun _ => 0) false 0 7
      []).2.2.1 1300 PyErr.overflowError (by decide) (by decide) (by decide)
      rfl (by decide) rfl,
   (c5_error_recovery (fun _ _ => .error .valueError) (fun _ => 0) false 0 3
      []).2.2.2⟩

/-- C10: for input `num = 0` the initial factor-of-2 stripping loop
(`while num % 2 == 0`) never exits (`0 % 2 == 0` and `0 / 2 == 0`), so
`ShorFactoringAlgorithmClassical` has no terminal run at all: the call does
not terminate and returns no value. -/
theorem c10_zero_diverges :
    ∀ (limit : ℕ) (pf : ℕ → ℕ → Except PyErr ℕ) (oracle : ℕ → ℕ) (qc : Bool),
      {res : List ℕ |
        ShorFactoringAlgorithmClassical pf oracle 0 limit qc res} = ∅ := by
  intro limit pf oracle qc
  rw [Set.eq_empty_iff_forall_not_mem]
  rintro res ⟨l2, r2, l5, r5, h2, _, _⟩
  exact stripRel_ne_zero h2 rfl

/-! ## C6: whitelist `ValueError` in `c_amod15` / `c_amodb` -/

/-- `bind` on a successful `Except` value applies the continuation. -/
theorem okBind {α β : Type} (a : α) (f : α → Except PyErr β) :
    (Except.ok a >>= f) = f a := rfl

/-- `np.dot` succeeds on shape-compatible operands, with the product's
shape. -/
theorem npdot_shape (A B : Mat) (h : A.cols = B.rows) :
    ∃ C, npdot A B = .ok C ∧ C.rows = A.rows ∧ C.cols = B.cols := by
  unfold npdot
  rw [if_pos h]
  exact ⟨_, rfl, rfl, rfl⟩

/-- One pair-loop step of `applied_swap_gate` keeps the running 1-D
`swapped_qubit_matrix` a `1 × n` row and never fails when the row length
matches the gate size `n`. -/
theorem asgPairStep_shape (n : ℕ) (args : List ℕ)
    (st : (ℕ → ℕ → K) × Mat) (argv : ℕ)
    (hr : st.2.rows = 1) (hc : st.2.cols = n) :
    ∃ st', asgPairStep n args st argv = .ok st' ∧
      st'.2.rows = 1 ∧ st'.2.cols = n := by
  unfold asgPairStep
  by_cases hcond :
      st.1 (2 * args.getD argv 0 + 1) (2 * args.getD argv 0 + 1) ≠ 0 ∧
      st.1 (2 * args.getD (argv + 1) 0) (2 * args.getD (argv + 1) 0) ≠ 0
  · rw [if_pos hcond]
    obtain ⟨C, hC, hCr, hCc⟩ :=
      npdot_shape st.2
        ⟨n, n, asgUpdate st.1 (args.getD argv 0) (args.getD (argv + 1) 0)⟩ hc
    rw [hC]
    simp only [okBind]
    exact ⟨_, rfl, by show C.rows = 1; rw [hCr]; exact hr,
           by show C.cols = n; exact hCc⟩
  · rw [if_neg hcond]
    exact ⟨st, rfl, hr, hc⟩

/-- `applied_swap_gate` on a square `16 × 16` input with one pair of
arguments succeeds and returns a `16 × 16` matrix. -/
theorem applied_swap_gate_shape (m : Mat) (q0 q1 : ℕ)
    (hr : m.rows = 16) (hc : m.cols = 16) :
    ∃ m', applied_swap_gate m [q0, q1] = .ok m' ∧
      m'.rows = 16 ∧ m'.cols = 16 := by
  have hne : ¬ m.cols = 1 := by omega
  obtain ⟨st', hst, hstr, hstc⟩ :=
    asgPairStep_shape m.rows [q0, q1]
      ((fun i j => if i = j then (1 : K) else 0),
       (⟨1, m.rows, fun _ j => m.entries j j⟩ : Mat)) 0 rfl rfl
  have hfold : (List.range ([q0, q1].length / 2)).foldlM
      (asgPairStep m.rows [q0, q1])
      ((fun i j => if i = j then (1 : K) else 0),
       (⟨1, m.rows, fun _ j => m.entries j j⟩ : Mat)) = Except.ok st' := by
    rw [show ([q0, q1].length / 2) = 1 by simp,
        show List.range 1 = [0] from rfl,
        List.foldlM_cons, hst, okBind, List.foldlM_nil]
    rfl
  unfold applied_swap_gate
  rw [if_neg hne, if_neg (by simp : ¬ ([q0, q1].isEmpty = true)), hfold]
  simp only [okBind]
  exact ⟨npdiagOfRow st'.2, rfl,
         by show st'.2.cols = 16; rw [hstc, hr],
         by show st'.2.cols = 16; rw [hstc, hr]⟩

/-- Three chained swap applications preserve success and the `16 × 16`
shape. -/
theorem asg3_shape (m : Mat) (a0 a1 b0 b1 d0 d1 : ℕ)
    (hr : m.rows = 16) (hc : m.cols = 16) :
    ∃ m', asg3 m [a0, a1] [b0, b1] [d0, d1] = .ok m' ∧
      m'.rows = 16 ∧ m'.cols = 16 := by
  obtain ⟨x, hx, hxr, hxc⟩ := applied_swap_gate_shape m a0 a1 hr hc
  obtain ⟨y, hy, hyr, hyc⟩ := applied_swap_gate_shape x b0 b1 hxr hxc
  obtain ⟨z, hz, hzr, hzc⟩ := applied_swap_gate_shape y d0 d1 hyr hyc
  refine ⟨z, ?_, hzr, hzc⟩
  unfold asg3
  rw [hx]
  simp only [okBind]
  rw [hy]
  simp only [okBind]
  exact hz

/-- Two chained swap applications preserve success and the `16 × 16`
shape. -/
theorem asg2_shape (m : Mat) (a0 a1 b0 b1 : ℕ)
    (hr : m.rows = 16) (hc : m.cols = 16) :
    ∃ m', asg2 m [a0, a1] [b0, b1] = .ok m' ∧
      m'.rows = 16 ∧ m'.cols = 16 := by
  obtain ⟨x, hx, hxr, hxc⟩ := applied_swap_gate_shape m a0 a1 hr hc
  obtain ⟨y, hy, hyr, hyc⟩ := applied_swap_gate_shape x b0 b1 hxr hxc
  refine ⟨y, ?_, hyr, hyc⟩
  unfold asg2
  rw [hx]
  simp only [okBind]
  exact hy

/-- The shared loop body of `c_amod15`/`c_amodb` never fails on a
`16 × 16` matrix, whatever its four branch conditions, and keeps the
shape. -/
theorem camodCore_shape (c1 c2 c3 c4 : Bool) (m : Mat)
    (hr : m.rows = 16) (hc : m.cols = 16) :
    ∃ m', camodCore c1 c2 c3 c4 m = .ok m' ∧
      m'.rows = 16 ∧ m'.cols = 16 := by
  obtain ⟨m1, h1, h1r, h1c⟩ :
      ∃ m1, (if c1 = true then asg3 m [0, 1] [1, 2] [2, 3] else Except.ok m) =
        .ok m1 ∧ m1.rows = 16 ∧ m1.cols = 16 := by
    cases c1
    · exact ⟨m, by rw [if_neg Bool.false_ne_true], hr, hc⟩
    · obtain ⟨x, hx, hxr, hxc⟩ := asg3_shape m 0 1 1 2 2 3 hr hc
      exact ⟨x, by rw [if_pos rfl]; exact hx, hxr, hxc⟩
  obtain ⟨m2, h2, h2r, h2c⟩ :
      ∃ m2, (if c2 = true then asg3 m1 [2, 3] [1, 2] [0, 1] else Except.ok m1) =
        .ok m2 ∧ m2.rows = 16 ∧ m2.cols = 16 := by
    cases c2
    · exact ⟨m1, by rw [if_neg Bool.false_ne_true], h1r, h1c⟩
    · obtain ⟨x, hx, hxr, hxc⟩ := asg3_shape m1 2 3 1 2 0 1 h1r h1c
      exact ⟨x, by rw [if_pos rfl]; exact hx, hxr, hxc⟩
  obtain ⟨m3, h3, h3r, h3c⟩ :
      ∃ m3, (if c3 = true then asg2 m2 [1, 3] [0, 2] else Except.ok m2) =
        .ok m3 ∧ m3.rows = 16 ∧ m3.cols = 16 := by
    cases c3
    · exact ⟨m2, by rw [if_neg Bool.false_ne_true], h2r, h2c⟩
    · obtain ⟨x, hx, hxr, hxc⟩ := asg2_shape m2 1 3 0 2 h2r h2c
      exact ⟨x, by rw [if_pos rfl]; exact hx, hxr, hxc⟩
  unfold camodCore
  rw [h1]
  simp only [okBind]
  rw [h2]
  simp only [okBind]
  rw [h3]
  simp only [okBind]
  cases c4
  · rw [if_neg Bool.false_ne_true]
    exact ⟨m3, rfl, h3r, h3c⟩
  · rw [if_pos rfl]
    obtain ⟨C, hC, hCr, hCc⟩ :=
      npdot_shape (Mat.kron Pauli_X_gate (npidentity (m3.rows / 2))) m3
        (by show 2 * (m3.rows / 2) = m3.rows; rw [h3r])
    rw [hC]
    refine ⟨C, rfl, ?_, ?_⟩
    · rw [hCr]
      show 2 * (m3.rows / 2) = 16
      rw [h3r]
    · rw [hCc]
      exact h3c

/-- `range(power)` iterations of any shape-preserving, non-failing step
succeed and preserve the `16 × 16` shape. -/
theorem iterM_shape (step : Mat → Except PyErr Mat)
    (hstep : ∀ m, m.rows = 16 → m.cols = 16 →
      ∃ m', step m = .ok m' ∧ m'.rows = 16 ∧ m'.cols = 16)
    (n : ℕ) (m : Mat) (hr : m.rows = 16) (hc : m.cols = 16) :
    ∃ m', iterM step n m = .ok m' ∧ m'.rows = 16 ∧ m'.cols = 16 := by
  induction n generalizing m with
  | zero => exact ⟨m, rfl, hr, hc⟩
  | succ k ih =>
      obtain ⟨m1, h1, h1r, h1c⟩ := hstep m hr hc
      obtain ⟨m', h', hr', hc'⟩ := ih m1 h1r h1c
      refine ⟨m', ?_, hr', hc'⟩
      show step m >>= iterM step k = .ok m'
      rw [h1, okBind]
      exact h'

/-- A whitelisted base makes `c_amod15` succeed (the body never raises). -/
theorem c_amod15_ok (a : ℤ) (power : ℕ)
    (ha : a ∈ ([2, 7, 8, 11, 13] : List ℤ)) :
    ∃ m', c_amod15 a power = .ok m' := by
  obtain ⟨m0, hm0, h0r, h0c⟩ :
      ∃ m0, get_qubit_matrix 4 [] = .ok m0 ∧ m0.rows = 16 ∧ m0.cols = 16 :=
    ⟨_, rfl, rfl, rfl⟩
  obtain ⟨m', h', _, _⟩ :=
    iterM_shape (camodStep15 a)
      (fun m hr hc => camodCore_shape _ _ _ _ m hr hc) power m0 h0r h0c
  refine ⟨m', ?_⟩
  unfold c_amod15
  rw [if_pos ha, hm0, okBind]
  exact h'

/-- A base on the float-evaluated whitelist makes `c_amodb` succeed for
every in-range modulus (the body never raises). -/
theorem c_amodb_ok (a b : ℤ) (power : ℕ)
    (hb : ¬ 2 ^ 1025 - 2 ^ 971 ≤ (b - 1).natAbs)
    (ha : (a : ℚ) ∈ ([2, (rnd53Z (b - 1) : ℚ) / 2,
                     (rnd53Z (rnd53Z (b - 1) + 2) : ℚ) / 2,
                     (b : ℚ) - 4, (b : ℚ) - 2] : List ℚ)) :
    ∃ m', c_amodb a power b = .ok m' := by
  obtain ⟨m0, hm0, h0r, h0c⟩ :
      ∃ m0, get_qubit_matrix 4 [] = .ok m0 ∧ m0.rows = 16 ∧ m0.cols = 16 :=
    ⟨_, rfl, rfl, rfl⟩
  obtain ⟨m', h', _, _⟩ :=
    iterM_shape (camodStepB a b)
      (fun m hr hc => camodCore_shape _ _ _ _ m hr hc) power m0 h0r h0c
  refine ⟨m', ?_⟩
  unfold c_amodb
  rw [if_neg hb, if_pos ha, hm0, okBind]
  exact h'

set_option maxRecDepth 8000 in
/-- C6 (counterexample): the claim says `c_amodb` raises `ValueError` iff
`a` is outside the mathematical set `{2, (b-1)/2, (b-1)/2+1, b-4, b-2}`.
At `b = 2^54 + 3` the floats `(b-1)/2` and `(b-1)/2 + 1` both round to
`2^53` (ties to even), so `a = 2^53 + 2` — which equals `(b-1)/2 + 1`
exactly, hence lies inside the claimed set — matches no element of the
float-evaluated whitelist and the source raises `ValueError` anyway. -/
theorem c6_float_counterexample :
    c_amodb (2 ^ 53 + 2) 0 (2 ^ 54 + 3) = Except.error PyErr.valueError ∧
    ((2 ^ 53 + 2 : ℚ) = ((2 ^ 54 + 3 : ℚ) - 1) / 2 + 1) := by
  constructor
  · with_unfolding_all rfl
  · norm_num

/-- C6 (amended): `c_amod15` raises `ValueError` iff its base `a` is
outside the whitelist `[2, 7, 8, 11, 13]` (exact integer comparisons); and
`c_amodb` raises `ValueError` iff the modulus is in double range (beyond
`|b - 1| ≥ 2^1025 - 2^971` building the whitelist itself raises
`OverflowError`) and the exact integer `a` matches no element of the
float-evaluated whitelist `[2, fl((b-1)/2), fl(fl((b-1)/2) + 1), b - 4,
b - 2]`.  In both functions the error path is the initial guard, before
any matrix is built, and a whitelisted base never reaches an error. -/
theorem c6_float_whitelist_value_error :
    (∀ (a : ℤ) (power : ℕ),
        c_amod15 a power = Except.error PyErr.valueError ↔
          a ∉ ([2, 7, 8, 11, 13] : List ℤ)) ∧
    (∀ (a b : ℤ) (power : ℕ),
        c_amodb a power b = Except.error PyErr.valueError ↔
          (¬ 2 ^ 1025 - 2 ^ 971 ≤ (b - 1).natAbs ∧
           (a : ℚ) ∉ ([2, (rnd53Z (b - 1) : ℚ) / 2,
                       (rnd53Z (rnd53Z (b - 1) + 2) : ℚ) / 2,
                       (b : ℚ) - 4, (b : ℚ) - 2] : List ℚ))) := by
  constructor
  · intro a power
    constructor
    · intro herr hmem
      obtain ⟨m', hm'⟩ := c_amod15_ok a power hmem
      rw [hm'] at herr
      exact Except.noConfusion herr
    · intro hnot
      unfold c_amod15
      rw [if_neg hnot]
  · intro a b power
    constructor
    · intro herr
      by_cases hb : 2 ^ 1025 - 2 ^ 971 ≤ (b - 1).natAbs
      · exfalso
        unfold c_amodb at herr
        rw [if_pos hb] at herr
        exact PyErr.noConfusion (Except.error.inj herr)
      refine ⟨hb, fun hmem => ?_⟩
      obtain ⟨m', hm'⟩ := c_amodb_ok a b power hb hmem
      rw [hm'] at herr
      exact Except.noConfusion herr
    · rintro ⟨hb, hnot⟩
      unfold c_amodb
      rw [if_neg hb, if_neg hnot]
